import Mathlib

/-!
Shallow embedding of the event-dispatch core of `src/rpd/client.py`
(`Client.dispatch`, `Client._run_event`, `Client._schedule_event`) from the
cupcub/discord.io repository.

Modelling decisions, each tied to a line of the source:

* A waiter ("listener") is a pair of an `asyncio.Future` and a condition
  callable (`self._listeners: Dict[str, List[Tuple[asyncio.Future, Callable[..., bool]]]]`,
  client.py line 64).  The future is modelled by an explicit state
  (`FutureState`); the condition is a Lean function from the positional
  argument list to `Except E Bool` (it may raise, modelled by `Except.error`).
* Python `dict` is modelled by an association list with unique keys;
  `dict.get`, in-place value update and `dict.pop` become `alistGet`,
  `alistSet`, `alistErase`.
* `dispatch(event, *args, **kwargs)` walks the listener list for `event`,
  collects removal indices, deletes them in reverse (equivalent to an
  order-preserving filter of the kept entries), pops the key when every
  entry was removed, and finally schedules `getattr(self, "on_" + event)`
  when that attribute exists.  Scheduling is modelled as returning the
  scheduled-task data unevaluated, exactly as `_schedule_event` hands the
  coroutine to `asyncio.create_task` without awaiting it.
* `_run_event` awaits the handler, passes `asyncio.CancelledError`,
  and on any other exception awaits `self.on_error(event_name, *args, **kwargs)`,
  swallowing only `asyncio.CancelledError` raised by that sink.  Coroutine
  executions are modelled by their outcome (`PyOutcome`): normal return,
  cancellation, or a raised error.
-/

namespace RPD

/-- Modelled from the spec: `MISSING` is a sentinel object imported from
`rpd.helpers`, a module of this repository that is not present under `src/`.
The spec states that in the boolean context `if not args or MISSING`
(client.py line 135) its truthiness is always true. -/
def MISSING_truthy : Bool := true

/-- The value placed into a waiter's future by `dispatch`:
Python `None`, a single unwrapped argument, or the whole argument tuple
(client.py lines 135-140). -/
inductive FutVal (V : Type) where
  | null
  | single (v : V)
  | tuple (vs : List V)
  deriving DecidableEq, Repr

/-- State of an `asyncio.Future` as observed by `dispatch`. -/
inductive FutureState (V E : Type) where
  | pending
  | cancelled
  | resolved (v : FutVal V)
  | failed (e : E)
  deriving DecidableEq, Repr

/-- One entry of `self._listeners[event]`: a future together with its
condition callable.  A condition that raises is modelled by `Except.error`. -/
structure Listener (V E : Type) where
  fut : FutureState V E
  cond : List V → Except E Bool

/-- The value passed to `future.set_result` when a condition returned a
truthy result (client.py lines 135-140):
`if not args or MISSING: None elif len(args) == 1: args[0] else: args`. -/
def resolvedValue {V : Type} (args : List V) : FutVal V :=
  if args.isEmpty || MISSING_truthy then FutVal.null
  else
    match args with
    | [a] => FutVal.single a
    | _ => FutVal.tuple args

/-- What one iteration of the dispatch loop does to one listener. -/
inductive WaiterOutcome (V E : Type) where
  | kept
  | removedCancelled
  | removedFailed (e : E)
  | removedResolved (v : FutVal V)
  deriving DecidableEq, Repr

/-- The body of the `for i, (future, condition) in enumerate(listeners)` loop
(client.py lines 123-141): a cancelled future is marked removed without its
condition being called; a condition that raises fails the future and marks it
removed; a truthy condition result resolves the future with `resolvedValue`
and marks it removed; otherwise the listener is kept. -/
def procWaiter {V E : Type} (args : List V) (l : Listener V E) : WaiterOutcome V E :=
  match l.fut with
  | FutureState.cancelled => WaiterOutcome.removedCancelled
  | _ =>
    match l.cond args with
    | Except.error e => WaiterOutcome.removedFailed e
    | Except.ok result =>
      if result then WaiterOutcome.removedResolved (resolvedValue args)
      else WaiterOutcome.kept

/-- The future's state after the loop body ran on its listener:
`set_exception` / `set_result` mutate it, the other branches leave it alone. -/
def stepFut {V E : Type} (args : List V) (l : Listener V E) : FutureState V E :=
  match procWaiter args l with
  | WaiterOutcome.kept => l.fut
  | WaiterOutcome.removedCancelled => l.fut
  | WaiterOutcome.removedFailed e => FutureState.failed e
  | WaiterOutcome.removedResolved v => FutureState.resolved v

/-- `true` when the loop body did not append the listener's index to
`removed`. -/
def isKept {V E : Type} (o : WaiterOutcome V E) : Bool :=
  match o with
  | WaiterOutcome.kept => true
  | _ => false

/-- `true` when the listener's condition returned a truthy result, so its
future was resolved with a value. -/
def isMatched {V E : Type} (args : List V) (l : Listener V E) : Bool :=
  match procWaiter args l with
  | WaiterOutcome.removedResolved _ => true
  | _ => false

/-- The outcome of the loop for each listener, in registration order. -/
def dispatchOutcomes {V E : Type} (args : List V) (ls : List (Listener V E)) :
    List (WaiterOutcome V E) :=
  ls.map (procWaiter args)

/-- The listener list after `for idx in reversed(removed): del listeners[idx]`
(client.py lines 145-146): exactly the kept entries, relative order
preserved. -/
def dispatchRemaining {V E : Type} (args : List V) (ls : List (Listener V E)) :
    List (Listener V E) :=
  ls.filter (fun l => isKept (procWaiter args l))

/-- `dict.get`: value of the first binding of the key, if any. -/
def alistGet {β : Type} (m : List (String × β)) (k : String) : Option β :=
  match m with
  | [] => none
  | (k2, v) :: rest => if k2 = k then some v else alistGet rest k

/-- In-place replacement of a key's binding (appending when absent). -/
def alistSet {β : Type} (m : List (String × β)) (k : String) (v : β) :
    List (String × β) :=
  match m with
  | [] => [(k, v)]
  | (k2, v2) :: rest => if k2 = k then (k, v) :: rest else (k2, v2) :: alistSet rest k v

/-- `dict.pop`: remove the first binding of the key. -/
def alistErase {β : Type} (m : List (String × β)) (k : String) :
    List (String × β) :=
  match m with
  | [] => []
  | (k2, v2) :: rest => if k2 = k then rest else (k2, v2) :: alistErase rest k

/-- The keys of an association list. -/
def alistKeys {β : Type} (m : List (String × β)) : List String :=
  m.map Prod.fst

/-- The state of a `Client` as seen by `dispatch`: the `_listeners` dict and
the object's attribute table, consulted by `getattr(self, "on_" + event)`
(handlers are installed with `setattr` by `Client.event`). -/
structure ClientState (V E K H : Type) where
  listeners : List (String × List (Listener V E))
  attrs : String → Option H

/-- The data handed to `asyncio.create_task` by `_schedule_event`
(client.py lines 98-108): the coroutine function, the event name and the
dispatch arguments.  Nothing of it is evaluated by `dispatch`. -/
structure Scheduled (V K H : Type) where
  coro : H
  event_name : String
  args : List V
  kwargs : K

/-- `Client.dispatch(event, *args, **kwargs)` (client.py lines 110-153):
process the listener list of `event` (conditions see only the positional
`args`), pop the key when every listener was removed, then schedule the
`on_<event>` attribute when present.  Returns the new client state and the
scheduled task data, if any. -/
def dispatch {V E K H : Type} (st : ClientState V E K H) (event : String)
    (args : List V) (kwargs : K) :
    ClientState V E K H × Option (Scheduled V K H) :=
  let newListeners :=
    match alistGet st.listeners event with
    | none => st.listeners
    | some ls =>
      if ls.isEmpty then st.listeners
      else
        let rem := dispatchRemaining args ls
        if rem.isEmpty then alistErase st.listeners event
        else alistSet st.listeners event rem
  let task : Option (Scheduled V K H) :=
    match st.attrs ("on_" ++ event) with
    | none => none
    | some h => some ⟨h, "on_" ++ event, args, kwargs⟩
  (⟨newListeners, st.attrs⟩, task)

/-- Outcome of running a Python coroutine: normal return, cancellation
(`asyncio.CancelledError`), or a raised exception. -/
inductive PyOutcome (E : Type) where
  | ok
  | cancelled
  | raised (e : E)
  deriving DecidableEq, Repr

/-- What one execution of `Client._run_event` produced: its own outcome and
the calls it made to the error sink `self.on_error`. -/
structure RunEventResult (V E K : Type) where
  outcome : PyOutcome E
  sinkCalls : List (String × List V × K)

/-- `Client._run_event` (client.py lines 79-96): await the handler; a
cancellation is passed; any other exception triggers
`await self.on_error(event_name, *args, **kwargs)`, around which only
`asyncio.CancelledError` is caught — any other exception raised by the sink
escapes the wrapper. -/
def run_event {V E K : Type} (coroOutcome : PyOutcome E)
    (onError : String → List V → K → PyOutcome E)
    (event_name : String) (args : List V) (kwargs : K) : RunEventResult V E K :=
  match coroOutcome with
  | PyOutcome.ok => ⟨PyOutcome.ok, []⟩
  | PyOutcome.cancelled => ⟨PyOutcome.ok, []⟩
  | PyOutcome.raised _ =>
    match onError event_name args kwargs with
    | PyOutcome.ok => ⟨PyOutcome.ok, [(event_name, args, kwargs)]⟩
    | PyOutcome.cancelled => ⟨PyOutcome.ok, [(event_name, args, kwargs)]⟩
    | PyOutcome.raised e2 => ⟨PyOutcome.raised e2, [(event_name, args, kwargs)]⟩

/-- No key of the `_listeners` dict is bound to an empty list. -/
def noEmpty {V E : Type} (m : List (String × List (Listener V E))) : Prop :=
  ∀ p ∈ m, p.2 ≠ ([] : List (Listener V E))

/-- Every future sitting in the `_listeners` dict is pending or cancelled:
resolved and failed futures are removed by the dispatch pass that touched
them. -/
def allPendingOrCancelled {V E K H : Type} (st : ClientState V E K H) : Prop :=
  ∀ p ∈ st.listeners, ∀ l ∈ p.2,
    l.fut = FutureState.pending ∨ l.fut = FutureState.cancelled

/-! ### Association-list lemmas -/

theorem alistGet_mem {β : Type} {m : List (String × β)} {k : String} {v : β}
    (h : alistGet m k = some v) : (k, v) ∈ m := by
  induction m with
  | nil => simp [alistGet] at h
  | cons p rest ih =>
    obtain ⟨k2, v2⟩ := p
    by_cases hk : k2 = k
    · subst hk
      simp [alistGet] at h
      subst h
      exact List.mem_cons_self _ _
    · simp [alistGet, hk] at h
      exact List.mem_cons_of_mem _ (ih h)

theorem mem_alistErase {β : Type} {m : List (String × β)} {k : String}
    {p : String × β} (h : p ∈ alistErase m k) : p ∈ m := by
  induction m with
  | nil => simp [alistErase] at h
  | cons q rest ih =>
    obtain ⟨k2, v2⟩ := q
    by_cases hk : k2 = k
    · simp [alistErase, hk] at h
      exact List.mem_cons_of_mem _ h
    · simp [alistErase, hk] at h
      rcases h with h | h
      · simp [h]
      · exact List.mem_cons_of_mem _ (ih h)

theorem mem_alistSet {β : Type} {m : List (String × β)} {k : String} {v : β}
    {p : String × β} (h : p ∈ alistSet m k v) : p ∈ m ∨ p = (k, v) := by
  induction m with
  | nil => simp [alistSet] at h; simp [h]
  | cons q rest ih =>
    obtain ⟨k2, v2⟩ := q
    by_cases hk : k2 = k
    · simp [alistSet, hk] at h
      rcases h with h | h
      · exact Or.inr (by simp [h])
      · exact Or.inl (List.mem_cons_of_mem _ h)
    · simp [alistSet, hk] at h
      rcases h with h | h
      · exact Or.inl (by simp [h])
      · rcases ih h with h2 | h2
        · exact Or.inl (List.mem_cons_of_mem _ h2)
        · exact Or.inr h2

theorem alistGet_set_self {β : Type} (m : List (String × β)) (k : String) (v : β) :
    alistGet (alistSet m k v) k = some v := by
  induction m with
  | nil => simp [alistSet, alistGet]
  | cons q rest ih =>
    obtain ⟨k2, v2⟩ := q
    by_cases hk : k2 = k
    · simp [alistSet, hk, alistGet]
    · simp [alistSet, hk, alistGet, ih]

theorem alistGet_erase_self {β : Type} {m : List (String × β)} {k : String}
    (hnodup : (alistKeys m).Nodup) : alistGet (alistErase m k) k = none := by
  induction m with
  | nil => simp [alistErase, alistGet]
  | cons q rest ih =>
    obtain ⟨k2, v2⟩ := q
    have hnodup2 : (k2 :: alistKeys rest).Nodup := hnodup
    obtain ⟨hnotin, hrest⟩ := List.nodup_cons.mp hnodup2
    by_cases hk : k2 = k
    · subst hk
      have hred : alistGet (alistErase ((k2, v2) :: rest) k2) k2 = alistGet rest k2 := by
        simp [alistErase]
      rw [hred]
      cases hget : alistGet rest k2 with
      | none => rfl
      | some v3 =>
        exact absurd (List.mem_map_of_mem Prod.fst (alistGet_mem hget)) hnotin
    · simp only [alistErase, if_neg hk, alistGet]
      exact ih hrest

/-! ### Helper lemmas about the dispatch loop -/

theorem procWaiter_resolved_val {V E : Type} {args : List V} {l : Listener V E}
    {v : FutVal V} (h : procWaiter args l = WaiterOutcome.removedResolved v) :
    v = resolvedValue args := by
  obtain ⟨f, c⟩ := l
  cases hc : c args with
  | error e => cases f <;> simp [procWaiter, hc] at h
  | ok b =>
    cases b <;> cases f <;> simp [procWaiter, hc] at h <;> exact h.symm

theorem isKept_true_iff {V E : Type} {args : List V} {l : Listener V E} :
    isKept (procWaiter args l) = true ↔ procWaiter args l = WaiterOutcome.kept := by
  cases hp : procWaiter args l <;> simp [isKept]

theorem stepFut_of_kept {V E : Type} {args : List V} {l : Listener V E}
    (hp : procWaiter args l = WaiterOutcome.kept) : stepFut args l = l.fut := by
  simp [stepFut, hp]

/-! ### Claim theorems -/

/-- C1: the claim states that a matching waiter's result follows the arity of
`args` (zero args → null, one arg → that value unwrapped, two or more → the
tuple).  Evaluating the dispatch loop body at a one-argument dispatch with an
always-true condition shows the code resolves the future with `None` instead
of the unwrapped argument: the guard `not args or MISSING` is always true
because the `MISSING` sentinel is truthy, so the `len(args) == 1` and tuple
branches are unreachable. -/
theorem c1_one_arg_match_resolves_with_null :
    procWaiter ([42] : List Nat)
        (⟨FutureState.pending, fun _ => Except.ok true⟩ : Listener Nat String)
      = WaiterOutcome.removedResolved FutVal.null
    ∧ FutVal.null ≠ FutVal.single (42 : Nat)
    ∧ resolvedValue ([42] : List Nat) = FutVal.null := by
  refine ⟨rfl, ?_, rfl⟩
  decide

/-- C2 counterexample: a handler that raises, combined with an error sink
that itself raises a non-cancellation exception, leaves `_run_event` with
outcome `raised "sink failure"` rather than a normal return: the sink's
failure escapes the handler-execution wrapper, because the inner
`try/except` around `self.on_error` catches only `asyncio.CancelledError`. -/
theorem c2_sink_error_escapes_wrapper :
    (run_event (PyOutcome.raised "boom")
        (fun _ _ _ => PyOutcome.raised "sink failure")
        "on_message" ([] : List Nat) ()).outcome = PyOutcome.raised "sink failure"
    ∧ (run_event (PyOutcome.raised "boom")
        (fun _ _ _ => PyOutcome.raised "sink failure")
        "on_message" ([] : List Nat) ()).outcome ≠ PyOutcome.ok := by
  refine ⟨rfl, ?_⟩
  intro h
  simp [run_event] at h

/-- C2 amended: when the handler raises and the error sink is invoked, only
a cancellation raised by the sink (or a normal sink return) leaves the
handler-execution wrapper completing normally; any other exception raised by
the sink escapes the wrapper as the scheduled task's outcome. -/
theorem c2_amended_sink_cancellation_only_swallowed {V E K : Type} (e e2 : E)
    (onError : String → List V → K → PyOutcome E)
    (en : String) (args : List V) (kw : K) :
    ((onError en args kw = PyOutcome.ok ∨ onError en args kw = PyOutcome.cancelled) →
      (run_event (PyOutcome.raised e) onError en args kw).outcome = PyOutcome.ok)
    ∧ (onError en args kw = PyOutcome.raised e2 →
      (run_event (PyOutcome.raised e) onError en args kw).outcome = PyOutcome.raised e2) := by
  constructor
  · intro h
    rcases h with h | h <;> simp [run_event, h]
  · intro h
    simp [run_event, h]

/-- C2 amended witness: the amended theorem applied at a concrete sink that
gets cancelled. -/
theorem c2_amended_witness :
    (run_event (PyOutcome.raised "boom")
        (fun _ _ _ => PyOutcome.cancelled)
        "on_message" ([] : List Nat) ()).outcome = PyOutcome.ok :=
  (c2_amended_sink_cancellation_only_swallowed "boom" "unused"
    (fun _ _ _ => PyOutcome.cancelled) "on_message" [] ()).1 (Or.inr rfl)

/-- C3: an error raised by the scheduled handler is caught by `_run_event`
and routed to `on_error` with the event name and the dispatch arguments
(exactly one sink call); the waiter state produced by `dispatch` is
independent of which handlers are installed (so a handler failure never
affects waiters); and `dispatch` merely returns the scheduled-task data
without running it, so nothing of the handler's execution reaches
`dispatch`'s caller. -/
theorem c3_handler_error_routed_to_sink {V E K H : Type} (e : E)
    (onError : String → List V → K → PyOutcome E)
    (en : String) (args : List V) (kw : K)
    (L : List (String × List (Listener V E))) (A A2 : String → Option H)
    (event : String) (h : H)
    (hh : A ("on_" ++ event) = some h) :
    (run_event (PyOutcome.raised e) onError en args kw).sinkCalls = [(en, args, kw)]
    ∧ (dispatch (⟨L, A⟩ : ClientState V E K H) event args kw).fst.listeners
        = (dispatch (⟨L, A2⟩ : ClientState V E K H) event args kw).fst.listeners
    ∧ (dispatch (⟨L, A⟩ : ClientState V E K H) event args kw).snd
        = some ⟨h, "on_" ++ event, args, kw⟩ := by
  refine ⟨?_, rfl, ?_⟩
  · cases honErr : onError en args kw <;> simp [run_event, honErr]
  · simp [dispatch, hh]

/-- C3 witness: the theorem applied at a concrete raising handler and a
client with one installed handler. -/
theorem c3_witness :
    (run_event (PyOutcome.raised "boom") (fun _ _ _ => PyOutcome.ok)
        "on_ready" ([] : List Nat) ()).sinkCalls = [("on_ready", ([] : List Nat), ())] :=
  (c3_handler_error_routed_to_sink "boom" (fun _ _ _ => PyOutcome.ok) "on_ready" [] ()
    ([] : List (String × List (Listener Nat String)))
    (fun n => if n = "on_ready" then some "h" else none)
    (fun _ => (none : Option String)) "ready" "h" (by decide)).1

/-- C6: a listener whose future was already cancelled is marked for removal
without its condition being evaluated (the outcome is the same whatever the
condition is) and without its future being resolved, and no cancelled
listener survives into the remaining list, so it can never resolve on a
later dispatch. -/
theorem c6_cancelled_waiter_removed_without_eval {V E : Type} (args : List V)
    (c c2 : List V → Except E Bool) (ls : List (Listener V E)) :
    procWaiter args (⟨FutureState.cancelled, c⟩ : Listener V E)
      = WaiterOutcome.removedCancelled
    ∧ procWaiter args (⟨FutureState.cancelled, c⟩ : Listener V E)
      = procWaiter args (⟨FutureState.cancelled, c2⟩ : Listener V E)
    ∧ stepFut args (⟨FutureState.cancelled, c⟩ : Listener V E) = FutureState.cancelled
    ∧ ∀ l ∈ dispatchRemaining args ls, l.fut ≠ FutureState.cancelled := by
  refine ⟨rfl, rfl, rfl, ?_⟩
  intro l hl hfut
  have hk : isKept (procWaiter args l) = true := (List.mem_filter.mp hl).2
  obtain ⟨f, c3⟩ := l
  have hf : f = FutureState.cancelled := hfut
  subst hf
  simp [procWaiter, isKept] at hk

/-- C6 witness: the theorem applied at a one-element listener list holding a
cancelled future. -/
theorem c6_witness :
    stepFut ([] : List Nat)
        (⟨FutureState.cancelled, fun _ => Except.ok true⟩ : Listener Nat String)
      = FutureState.cancelled :=
  (c6_cancelled_waiter_removed_without_eval ([] : List Nat)
    (fun _ => Except.ok true) (fun _ => Except.ok true)
    ([⟨FutureState.cancelled, fun _ => Except.ok true⟩] :
      List (Listener Nat String))).2.2.1

/-- C9: dispatching an event with no pending waiters (its key absent, or
bound to an empty list that the `if listeners:` guard skips) and no
`on_<event>` attribute returns the state unchanged and schedules nothing. -/
theorem c9_no_waiters_no_handler_noop {V E K H : Type} (st : ClientState V E K H)
    (event : String) (args : List V) (kw : K)
    (hls : alistGet st.listeners event = none ∨ alistGet st.listeners event = some [])
    (hh : st.attrs ("on_" ++ event) = none) :
    dispatch st event args kw = (st, none) := by
  rcases hls with hls | hls <;> simp [dispatch, hls, hh]

/-- C9 witness: the theorem applied at a client with no listeners and no
handlers. -/
theorem c9_witness :
    dispatch (⟨[], fun _ => none⟩ : ClientState Nat String Unit String) "ready" [] ()
      = (⟨[], fun _ => none⟩, none) :=
  c9_no_waiters_no_handler_noop ⟨[], fun _ => none⟩ "ready" [] ()
    (Or.inl rfl) rfl

/-- C10: the keyword arguments of a dispatch call never influence waiter
processing — the client state after `dispatch` is identical for any two
kwargs values (conditions are called as `condition(*args)` with positional
args only) — and the kwargs are forwarded solely to the scheduled handler
task, together with the positional args and the `on_<event>` name. -/
theorem c10_kwargs_only_reach_handler {V E K H : Type} (st : ClientState V E K H)
    (event : String) (args : List V) (k1 k2 : K) :
    (dispatch st event args k1).fst = (dispatch st event args k2).fst
    ∧ (∀ s, (dispatch st event args k1).snd = some s →
        s.kwargs = k1 ∧ s.args = args ∧ s.event_name = "on_" ++ event) := by
  constructor
  · rfl
  · intro s hs
    cases hA : st.attrs ("on_" ++ event) with
    | none => simp [dispatch, hA] at hs
    | some h =>
      simp [dispatch, hA] at hs
      subst hs
      exact ⟨rfl, rfl, rfl⟩

/-- C10 witness: the theorem applied at a client with one installed handler
and two distinct kwargs values. -/
theorem c10_witness :
    (⟨"h", "on_ready", [], (0 : Nat)⟩ : Scheduled Nat Nat String).kwargs = 0 :=
  ((c10_kwargs_only_reach_handler
      (⟨[], fun n => if n = "on_ready" then some "h" else none⟩ :
        ClientState Nat String Nat String)
      "ready" [] 0 1).2 ⟨"h", "on_ready", [], 0⟩ (by simp [dispatch])).1

/-- C4: when at least two listeners' conditions match a dispatch, every
matching listener's future is resolved (all from this one call, each with
the value computed from `args`), every kept listener's future is untouched,
and the event's binding after `dispatch` is exactly the order-preserving
list of kept listeners — removed entirely when no listener is kept. -/
theorem c4_all_matching_resolve_in_order {V E K H : Type} (st : ClientState V E K H)
    (event : String) (args : List V) (kw : K) (ls : List (Listener V E))
    (hget : alistGet st.listeners event = some ls)
    (hnodup : (alistKeys st.listeners).Nodup)
    (hmatch : 2 ≤ (ls.filter (fun l => isMatched args l)).length) :
    (∀ l ∈ ls, isMatched args l = true →
        stepFut args l = FutureState.resolved (resolvedValue args))
    ∧ (∀ l ∈ ls, isKept (procWaiter args l) = true → stepFut args l = l.fut)
    ∧ alistGet ((dispatch st event args kw).fst.listeners) event
        = (if (dispatchRemaining args ls).isEmpty then none
           else some (dispatchRemaining args ls)) := by
  have hne : ls.isEmpty = false := by
    cases ls with
    | nil => simp at hmatch
    | cons a t => rfl
  refine ⟨?_, ?_, ?_⟩
  · intro l _ hm
    rw [isMatched] at hm
    cases hp : procWaiter args l with
    | kept => rw [hp] at hm; exact absurd hm (by simp)
    | removedCancelled => rw [hp] at hm; exact absurd hm (by simp)
    | removedFailed e2 => rw [hp] at hm; exact absurd hm (by simp)
    | removedResolved v => rw [stepFut, hp, procWaiter_resolved_val hp]
  · intro l _ hk
    exact stepFut_of_kept (isKept_true_iff.mp hk)
  · have hL : (dispatch st event args kw).fst.listeners =
        (if (dispatchRemaining args ls).isEmpty then alistErase st.listeners event
         else alistSet st.listeners event (dispatchRemaining args ls)) := by
      simp [dispatch, hget, hne]
    rw [hL]
    by_cases hrem : (dispatchRemaining args ls).isEmpty
    · simp [hrem, alistGet_erase_self hnodup]
    · simp [hrem, alistGet_set_self]

/-- C4 witness: two always-true waiters for one event; after one dispatch
the event's key is gone. -/
theorem c4_witness :
    alistGet
        ((dispatch
            (⟨[("ready",
                [⟨FutureState.pending, fun _ => Except.ok true⟩,
                 ⟨FutureState.pending, fun _ => Except.ok true⟩])],
              fun _ => none⟩ : ClientState Nat String Unit String)
            "ready" [] ()).fst.listeners) "ready"
      = (if (dispatchRemaining ([] : List Nat)
              ([⟨FutureState.pending, fun _ => Except.ok true⟩,
                ⟨FutureState.pending, fun _ => Except.ok true⟩] :
                List (Listener Nat String))).isEmpty then none
         else some (dispatchRemaining ([] : List Nat)
              ([⟨FutureState.pending, fun _ => Except.ok true⟩,
                ⟨FutureState.pending, fun _ => Except.ok true⟩] :
                List (Listener Nat String)))) :=
  (c4_all_matching_resolve_in_order
    (⟨[("ready",
        [⟨FutureState.pending, fun _ => Except.ok true⟩,
         ⟨FutureState.pending, fun _ => Except.ok true⟩])],
      fun _ => none⟩ : ClientState Nat String Unit String)
    "ready" [] ()
    ([⟨FutureState.pending, fun _ => Except.ok true⟩,
      ⟨FutureState.pending, fun _ => Except.ok true⟩] : List (Listener Nat String))
    (by simp [alistGet]) (by simp [alistKeys])
    (by simp [isMatched, procWaiter, resolvedValue])).2.2

/-- C5: a pending waiter whose condition raises is failed with exactly the
raised error and marked removed; the outcomes of the siblings before and
after it are computed segment-wise, unchanged whatever listener occupies its
position (so each sibling is evaluated independently and unaffected), and
the remaining list is the concatenation of the siblings' remaining lists —
the raising waiter is gone and the error never reaches `dispatch`'s
caller. -/
theorem c5_raising_condition_fails_only_its_waiter {V E : Type} (args : List V)
    (e : E) (c : List V → Except E Bool)
    (hc : c args = Except.error e)
    (pre post : List (Listener V E)) (l2 : Listener V E) :
    stepFut args (⟨FutureState.pending, c⟩ : Listener V E) = FutureState.failed e
    ∧ isKept (procWaiter args (⟨FutureState.pending, c⟩ : Listener V E)) = false
    ∧ dispatchOutcomes args (pre ++ (⟨FutureState.pending, c⟩ : Listener V E) :: post)
        = dispatchOutcomes args pre
          ++ WaiterOutcome.removedFailed e :: dispatchOutcomes args post
    ∧ dispatchOutcomes args (pre ++ l2 :: post)
        = dispatchOutcomes args pre ++ procWaiter args l2 :: dispatchOutcomes args post
    ∧ dispatchRemaining args (pre ++ (⟨FutureState.pending, c⟩ : Listener V E) :: post)
        = dispatchRemaining args pre ++ dispatchRemaining args post := by
  have hp : procWaiter args (⟨FutureState.pending, c⟩ : Listener V E)
      = WaiterOutcome.removedFailed e := by
    simp [procWaiter, hc]
  refine ⟨?_, ?_, ?_, ?_, ?_⟩
  · rw [stepFut, hp]
  · rw [hp]; rfl
  · simp [dispatchOutcomes, hp]
  · simp [dispatchOutcomes]
  · simp [dispatchRemaining, hp, isKept]

/-- C5 witness: the theorem applied at a concrete raising condition with one
sibling on each side. -/
theorem c5_witness :
    stepFut ([7] : List Nat)
        (⟨FutureState.pending, fun _ => Except.error "pred crash"⟩ : Listener Nat String)
      = FutureState.failed "pred crash" :=
  (c5_raising_condition_fails_only_its_waiter [7] "pred crash"
    (fun _ => Except.error "pred crash") rfl
    ([⟨FutureState.pending, fun _ => Except.ok false⟩] : List (Listener Nat String))
    ([⟨FutureState.pending, fun _ => Except.ok false⟩] : List (Listener Nat String))
    ⟨FutureState.pending, fun _ => Except.ok true⟩).1

/-- C7: starting from a `_listeners` dict with no key bound to an empty
list, `dispatch` never produces one — and whenever every listener of the
dispatched event is removed in the pass, the event's key itself is popped
from the dict. -/
theorem c7_no_dangling_empty_sequences {V E K H : Type} (st : ClientState V E K H)
    (event : String) (args : List V) (kw : K)
    (hne : noEmpty st.listeners) (hnodup : (alistKeys st.listeners).Nodup) :
    noEmpty ((dispatch st event args kw).fst.listeners)
    ∧ (∀ ls, alistGet st.listeners event = some ls →
        dispatchRemaining args ls = [] →
        alistGet ((dispatch st event args kw).fst.listeners) event = none) := by
  constructor
  · cases hget : alistGet st.listeners event with
    | none =>
      have hL : (dispatch st event args kw).fst.listeners = st.listeners := by
        simp [dispatch, hget]
      rw [hL]; exact hne
    | some ls =>
      have hlsne : ls ≠ [] := hne (event, ls) (alistGet_mem hget)
      have hlse : ls.isEmpty = false := by
        cases ls with
        | nil => exact absurd rfl hlsne
        | cons a t => rfl
      by_cases hrem : (dispatchRemaining args ls).isEmpty
      · have hL : (dispatch st event args kw).fst.listeners
            = alistErase st.listeners event := by
          simp [dispatch, hget, hlse, hrem]
        rw [hL]
        intro p hp
        exact hne p (mem_alistErase hp)
      · have hL : (dispatch st event args kw).fst.listeners
            = alistSet st.listeners event (dispatchRemaining args ls) := by
          simp [dispatch, hget, hlse, hrem]
        rw [hL]
        intro p hp
        rcases mem_alistSet hp with hp2 | hp2
        · exact hne p hp2
        · subst hp2
          simp only [List.isEmpty_iff] at hrem
          exact hrem
  · intro ls hget hrem
    have hlsne : ls ≠ [] := hne (event, ls) (alistGet_mem hget)
    have hlse : ls.isEmpty = false := by
      cases ls with
      | nil => exact absurd rfl hlsne
      | cons a t => rfl
    have hL : (dispatch st event args kw).fst.listeners
        = alistErase st.listeners event := by
      simp [dispatch, hget, hlse, hrem]
    rw [hL]
    exact alistGet_erase_self hnodup

/-- C7 witness: two always-true waiters for one event; both are removed by
one dispatch and the key is popped, leaving a dict with no empty binding. -/
theorem c7_witness :
    alistGet
        ((dispatch
            (⟨[("ready",
                [⟨FutureState.pending, fun _ => Except.ok true⟩,
                 ⟨FutureState.pending, fun _ => Except.ok true⟩])],
              fun _ => none⟩ : ClientState Nat String Unit String)
            "ready" [] ()).fst.listeners) "ready" = none :=
  (c7_no_dangling_empty_sequences
    (⟨[("ready",
        [⟨FutureState.pending, fun _ => Except.ok true⟩,
         ⟨FutureState.pending, fun _ => Except.ok true⟩])],
      fun _ => none⟩ : ClientState Nat String Unit String)
    "ready" [] ()
    (by intro p hp; simp at hp; subst hp; simp)
    (by simp [alistKeys])).2
    [⟨FutureState.pending, fun _ => Except.ok true⟩,
     ⟨FutureState.pending, fun _ => Except.ok true⟩]
    (by simp [alistGet])
    (by simp [dispatchRemaining, procWaiter, isKept])

/-- C8: a waiter's future is resolved at most once.  Each dispatch pass
produces exactly one outcome per listener; a listener that survives the pass
is exactly a kept one, and its future is untouched; every listener removed
with a resolution or failure leaves the dict, so (the dict holding only
pending or cancelled futures being preserved by `dispatch`) no later pass
can ever see — let alone resolve — an already-resolved future. -/
theorem c8_resolve_at_most_once {V E K H : Type} (st : ClientState V E K H)
    (event : String) (args : List V) (kw : K) (ls : List (Listener V E))
    (hAll : allPendingOrCancelled st) :
    allPendingOrCancelled (dispatch st event args kw).fst
    ∧ (∀ l ∈ dispatchRemaining args ls,
        stepFut args l = l.fut ∧ isKept (procWaiter args l) = true)
    ∧ (dispatchOutcomes args ls).length = ls.length
    ∧ (∀ l : Listener V E,
        l ∈ dispatchRemaining args ls ↔ l ∈ ls ∧ isKept (procWaiter args l) = true) := by
  refine ⟨?_, ?_, ?_, ?_⟩
  · cases hget : alistGet st.listeners event with
    | none =>
      have hL : (dispatch st event args kw).fst.listeners = st.listeners := by
        simp [dispatch, hget]
      intro p hp
      rw [hL] at hp
      exact hAll p hp
    | some ls0 =>
      by_cases hlse : ls0.isEmpty
      · have hL : (dispatch st event args kw).fst.listeners = st.listeners := by
          simp [dispatch, hget, hlse]
        intro p hp
        rw [hL] at hp
        exact hAll p hp
      · by_cases hrem : (dispatchRemaining args ls0).isEmpty
        · have hL : (dispatch st event args kw).fst.listeners
              = alistErase st.listeners event := by
            simp [dispatch, hget, hlse, hrem]
          intro p hp
          rw [hL] at hp
          exact hAll p (mem_alistErase hp)
        · have hL : (dispatch st event args kw).fst.listeners
              = alistSet st.listeners event (dispatchRemaining args ls0) := by
            simp [dispatch, hget, hlse, hrem]
          intro p hp
          rw [hL] at hp
          rcases mem_alistSet hp with hp2 | hp2
          · exact hAll p hp2
          · subst hp2
            intro l hl
            exact hAll (event, ls0) (alistGet_mem hget) l (List.mem_filter.mp hl).1
  · intro l hl
    have hk : isKept (procWaiter args l) = true := (List.mem_filter.mp hl).2
    exact ⟨stepFut_of_kept (isKept_true_iff.mp hk), hk⟩
  · simp [dispatchOutcomes]
  · intro l
    exact List.mem_filter

/-- C8 witness: the theorem applied at a client holding one pending waiter. -/
theorem c8_witness :
    (dispatchOutcomes ([] : List Nat)
        ([⟨FutureState.pending, fun _ => Except.ok true⟩] :
          List (Listener Nat String))).length
      = ([⟨FutureState.pending, fun _ => Except.ok true⟩] :
          List (Listener Nat String)).length :=
  (c8_resolve_at_most_once
    (⟨[("ready", [⟨FutureState.pending, fun _ => Except.ok true⟩])],
      fun _ => none⟩ : ClientState Nat String Unit String)
    "ready" [] ()
    ([⟨FutureState.pending, fun _ => Except.ok true⟩] : List (Listener Nat String))
    (by intro p hp l hl; simp at hp; subst hp; simp at hl; subst hl; exact Or.inl rfl)).2.2.1

end RPD
